import Mathlib

/-!
Verification development for the UTAGE registration-route reconciliation
service (`api/process.py`).  Python strings / bytes are modelled as lists of
Unicode code points (`List Nat`); every function below is a direct shallow
embedding of the corresponding Python function.  External collaborators
(the Unicode NFKC table, the CSV parser, the spreadsheet API) are modelled
from the specification, as noted on each definition.
-/

/-- A Python string (or bytes object), as its sequence of code points. -/
abbrev Str := List Nat

/-- Code-point sequence of a Lean string literal (used only to write
concrete Python string constants readably). -/
def codesOf (s : String) : Str := s.data.map Char.toNat

/-- Modelled from the spec: the whitespace characters stripped by Python
`str.strip()` — ASCII spaces/tabs/newlines plus the common Unicode spaces
(NBSP, ideographic space). -/
def isSpaceCode (c : Nat) : Bool :=
  c = 32 || c = 9 || c = 10 || c = 11 || c = 12 || c = 13 || c = 160 || c = 12288

/-- Python `s.strip()`: drop leading and trailing whitespace. -/
def stripS (s : Str) : Str :=
  ((s.dropWhile isSpaceCode).reverse.dropWhile isSpaceCode).reverse

/-- Python `s.lower()` per code point.  Modelled from the spec
("lowercase"): ASCII uppercase folds to lowercase, all other code points
are unchanged. -/
def lowerNat (c : Nat) : Nat :=
  if 65 ≤ c ∧ c ≤ 90 then c + 32 else c

/-- Python `s.lower()` on a whole string. -/
def lowerS (s : Str) : Str := s.map lowerNat

/-- Modelled from the spec: `unicodedata.normalize("NFKC", ·)` restricted
to a finite representative compatibility table — U+309B (katakana voiced
sound mark) decomposes to SPACE + U+3099, full-width Latin `Ａ` (U+FF21)
folds to `A`, the ideographic space U+3000 folds to SPACE; every other
code point is left unchanged. -/
def nfkcChar (c : Nat) : List Nat :=
  if c = 12443 then [32, 12441]
  else if c = 65313 then [65]
  else if c = 12288 then [32]
  else [c]

/-- NFKC normalization of a whole string (per-code-point fold). -/
def nfkcS (s : Str) : Str := (s.map nfkcChar).flatten

/-- Python's substring test `needle in hay`. -/
def containsSub (needle : Str) : Str → Bool
  | [] => needle.isEmpty
  | c :: rest => needle.isPrefixOf (c :: rest) || containsSub needle rest

/-- `normalize_email` from `api/process.py`: empty input maps to the empty
string, otherwise strip, then NFKC, then lowercase. -/
def normalizeEmail (email : Str) : Str :=
  if email = [] then []
  else lowerS (nfkcS (stripS email))

/-- `EMAIL_COLUMN_PATTERNS` from `api/process.py`. -/
def EMAIL_COLUMN_PATTERNS : List Str :=
  [codesOf "メールアドレス", codesOf "メアド", codesOf "eメール",
   codesOf "email", codesOf "e-mail", codesOf "mail"]

/-- `UTAGE_EMAIL_COLUMN` from `api/process.py`. -/
def UTAGE_EMAIL_COLUMN : Str := codesOf "メールアドレス"

/-- `UTAGE_ROUTE_COLUMN` from `api/process.py`. -/
def UTAGE_ROUTE_COLUMN : Str := codesOf "登録経路"

/-- The inner test of `find_email_column`: lowercase and strip the column
name, then test every alias for substring containment in either
direction. -/
def matchesAlias (colName : Str) : Bool :=
  let colLower := stripS (lowerS colName)
  EMAIL_COLUMN_PATTERNS.any fun p =>
    containsSub (lowerS p) colLower || containsSub colLower (lowerS p)

/-- The indexed loop of `find_email_column`. -/
def findEmailColumnAux (k : Nat) : List Str → Int
  | [] => -1
  | colName :: rest =>
      if matchesAlias colName then (k : Int) else findEmailColumnAux (k + 1) rest

/-- `find_email_column` from `api/process.py`: index of the first header
column matching an alias, `-1` if none. -/
def findEmailColumn (headerRow : List Str) : Int := findEmailColumnAux 0 headerRow

example : normalizeEmail (codesOf " A@X.COM ") = codesOf "a@x.com" := by decide
example : findEmailColumn [codesOf "氏名", codesOf "メールアドレス"] = 1 := by decide
example : findEmailColumn [codesOf "foo"] = -1 := by decide
example : normalizeEmail (codesOf "Ａ@x.com") = codesOf "a@x.com" := by decide

/-- The `while index > 0` loop of `col_index_to_letter`; the first argument
is fuel (the loop count is bounded by the starting index, which strictly
decreases on every iteration). -/
def colLetterAux : Nat → Nat → List Nat → List Nat
  | 0, _, acc => acc
  | _ + 1, 0, acc => acc
  | fuel + 1, m + 1, acc => colLetterAux fuel (m / 26) ((65 + m % 26) :: acc)

/-- `col_index_to_letter` from `api/process.py`: 0-based column index to
spreadsheet letters (`0 → "A"`, `26 → "AA"`). -/
def colIndexToLetter (index : Nat) : Str := colLetterAux (index + 1) (index + 1) []

example : colIndexToLetter 0 = codesOf "A" := by decide
example : colIndexToLetter 27 = codesOf "AB" := by decide
example : colIndexToLetter 702 = codesOf "AAA" := by decide

/-- The character class `[a-zA-Z0-9_-]` of the spreadsheet-ID regexes. -/
def idChar (c : Nat) : Bool :=
  (48 ≤ c && c ≤ 57) || (65 ≤ c && c ≤ 90) || (97 ≤ c && c ≤ 122) || c = 45 || c = 95

/-- The literal part `https://docs.google.com/spreadsheets/d/` of the first
regex in `extract_spreadsheet_id`. -/
def sheetUrlLit : Str := codesOf "https://docs.google.com/spreadsheets/d/"

/-- Modelled from the spec: Python `re.search` for the pattern
`https://docs\.google\.com/spreadsheets/d/([a-zA-Z0-9_-]+)` — the leftmost
position where the literal is followed by at least one ID character wins,
and the capture is the maximal run of ID characters there. -/
def urlSearch : Str → Option Str
  | [] => none
  | c :: rest =>
      let s := c :: rest
      let tail := s.drop sheetUrlLit.length
      if sheetUrlLit.isPrefixOf s ∧ (tail.take 1).any idChar then
        some (tail.takeWhile idChar)
      else urlSearch rest

/-- Modelled from the spec: Python `re.search` for the anchored pattern
`^([a-zA-Z0-9_-]+)$` — the whole (nonempty) string must be ID characters. -/
def tokenMatch (s : Str) : Option Str :=
  if s ≠ [] ∧ s.all idChar then some s else none

/-- `extract_spreadsheet_id` from `api/process.py`: try the URL regex, then
the bare-token regex, else return the input unchanged. -/
def extractSpreadsheetId (urlOrId : Str) : Str :=
  match urlSearch urlOrId with
  | some captured => captured
  | none =>
      match tokenMatch urlOrId with
      | some captured => captured
      | none => urlOrId

example :
    extractSpreadsheetId (codesOf "https://docs.google.com/spreadsheets/d/ABC123/edit") =
      codesOf "ABC123" := by decide
example : extractSpreadsheetId (codesOf "ABC123") = codesOf "ABC123" := by decide
example : extractSpreadsheetId (codesOf "no such id!") = codesOf "no such id!" := by decide

/-- Insertion-ordered dictionary (Python `dict`) as an association list. -/
abbrev Dict (β : Type) := List (Str × β)

/-- Python `d.get(key)`: value of the first (unique) entry with this key. -/
def dictGet {β : Type} : Dict β → Str → Option β
  | [], _ => none
  | (k, v) :: d, key => if k = key then some v else dictGet d key

/-- Python `d[key] = v`: overwrite in place, or append a new entry. -/
def dictSet {β : Type} : Dict β → Str → β → Dict β
  | [], key, v => [(key, v)]
  | (k, w) :: d, key, v =>
      if k = key then (k, v) :: d else (k, w) :: dictSet d key v

/-- `d.get(key, [])` for the routes dictionary. -/
def dictGetD (d : Dict (List Str)) (key : Str) : List Str :=
  (dictGet d key).getD []

/-- The per-route update of the CSV indexing loop: append the route unless
it is already present (dedupe, keep first-seen order). -/
def insertRoute (routes : List Str) (route : Str) : List Str :=
  if route ∈ routes then routes else routes ++ [route]

/-- Modelled from the spec: the decoded CSV as seen through pandas — named
columns over rows of cell strings (the "CSV Parser" external collaborator
"decodes bytes to tabular rows with named columns"). -/
structure Csv where
  columns : List Str
  rows : List (List Str)

/-- `str(row.get(column, ""))` on a decoded CSV row: the cell under the
named column, or the empty string when the column (or cell) is absent. -/
def getCell (columns : List Str) (row : List Str) (column : Str) : Str :=
  match columns.findIdx? (fun c => c = column) with
  | some i => row.getD i []
  | none => []

/-- One iteration of the CSV indexing loop of `process_data` (lines
130-139): skip empty emails, then record the route under the normalized
email unless already present. -/
def indexStep (columns : List Str) (d : Dict (List Str)) (row : List Str) :
    Dict (List Str) :=
  let email := getCell columns row UTAGE_EMAIL_COLUMN
  let route := getCell columns row UTAGE_ROUTE_COLUMN
  if email = [] then d
  else
    let n := normalizeEmail email
    dictSet d n (insertRoute (dictGetD d n) route)

/-- The CSV indexing loop of `process_data`: `email_to_routes`. -/
def buildIndex (csv : Csv) : Dict (List Str) :=
  csv.rows.foldl (indexStep csv.columns) []

/-- The route cells of the rows whose (nonempty) email normalizes to `key`,
in row order — the reference stream that `buildIndex` dedupes. -/
def routesForRows (columns : List Str) (key : Str) (rows : List (List Str)) :
    List Str :=
  rows.filterMap fun row =>
    let email := getCell columns row UTAGE_EMAIL_COLUMN
    if email ≠ [] ∧ normalizeEmail email = key then
      some (getCell columns row UTAGE_ROUTE_COLUMN)
    else none

/-- `routesForRows` packaged over a whole CSV. -/
def routesFor (csv : Csv) (key : Str) : List Str :=
  routesForRows csv.columns key csv.rows

/-- The test `email_col_index < len(row) and row[email_col_index]` of the
spreadsheet email-extraction loop. -/
def hasEmailCell (eIdx : Nat) (row : List Str) : Bool :=
  decide (eIdx < row.length) && !(row.getD eIdx []).isEmpty

/-- The spreadsheet email-extraction loop of `process_data` (lines
102-105): the email cells of the data rows that have one, in row order. -/
def emailsFrom (eIdx : Nat) (dataRows : List (List Str)) : List Str :=
  (dataRows.filter (hasEmailCell eIdx)).map fun row => row.getD eIdx []

/-- The matching loop's `not_found_emails` (lines 142-151): the extracted
emails whose normalized form has no routes in the index. -/
def notFoundFrom (idx : Dict (List Str)) (emails : List Str) : List Str :=
  emails.filter fun email => (dictGetD idx (normalizeEmail email)).isEmpty

/-- `", ".join(routes)`. -/
def joinRoutes (routes : List Str) : Str :=
  List.intercalate (codesOf ", ") routes

/-- The `result_map` build (lines 172-175): normalized email to the
comma-joined routes that matching found for it. -/
def resultMapFrom (idx : Dict (List Str)) (emails : List Str) : Dict Str :=
  emails.foldl
    (fun m email =>
      let n := normalizeEmail email
      dictSet m n (joinRoutes (dictGetD idx n)))
    []

/-- The `values_to_write` build (lines 178-186): one single-cell row per
spreadsheet data row — the joined routes of its email, or empty. -/
def valuesFrom (rMap : Dict Str) (eIdx : Nat) (dataRows : List (List Str)) :
    List (List Str) :=
  dataRows.map fun row =>
    if eIdx < row.length then
      [(dictGet rMap (normalizeEmail (row.getD eIdx []))).getD []]
    else [[]]

/-- Decimal rendering of a number, for the cell-range strings. -/
def natCodes (n : Nat) : Str := (Nat.toDigits 10 n).map Char.toNat

/-- The header label `"UTAGE登録経路"`. -/
def utageRouteHeader : Str := codesOf "UTAGE登録経路"

/-- A `worksheet.update(range, values)` call, recorded as an event. -/
structure Write where
  range : Str
  values : List (List Str)
deriving DecidableEq

/-- The JSON result object of a successful `process_data` run (counts are
Python ints). -/
structure ProcResult where
  total_count : Int
  success_count : Int
  not_found_count : Int
  not_found_emails : List Str
deriving DecidableEq

/-- Error message of `process_data` line 93. -/
def msgNoData : Str := codesOf "スプレッドシートにデータがありません"

/-- Error message of `process_data` line 99. -/
def msgNoEmailCol : Str := codesOf "メールアドレス列が見つかりません"

/-- Error message of `process_data` line 108. -/
def msgNoEmails : Str := codesOf "メールアドレスが見つかりません"

/-- Error messages of `process_data` lines 124 and 126: `CSVに「{col}」列がありません`. -/
def msgMissingCol (column : Str) : Str :=
  codesOf "CSVに「" ++ column ++ codesOf "」列がありません"

/-- `process_data` from `api/process.py`, with the spreadsheet contents
(`worksheet.get_all_values()`) and the decoded CSV as inputs, and the
`worksheet.update` calls recorded as a list of `Write` events alongside
the returned result or raised error message. -/
def processData (allData : List (List Str)) (csv : Csv) :
    Except Str ProcResult × List Write :=
  match allData with
  | [] => (Except.error msgNoData, [])
  | headerRow :: dataRows =>
    let eCol := findEmailColumn headerRow
    if eCol < 0 then (Except.error msgNoEmailCol, [])
    else
      let eIdx := eCol.toNat
      let emails := emailsFrom eIdx dataRows
      if emails = [] then (Except.error msgNoEmails, [])
      else if UTAGE_EMAIL_COLUMN ∉ csv.columns then
        (Except.error (msgMissingCol UTAGE_EMAIL_COLUMN), [])
      else if UTAGE_ROUTE_COLUMN ∉ csv.columns then
        (Except.error (msgMissingCol UTAGE_ROUTE_COLUMN), [])
      else
        let idx := buildIndex csv
        let notFound := notFoundFrom idx emails
        let routeColIdx :=
          (headerRow.findIdx? (fun c => c = utageRouteHeader)).getD headerRow.length
        let letter := colIndexToLetter routeColIdx
        let headerWrite : Write := ⟨letter ++ codesOf "1", [[utageRouteHeader]]⟩
        let rMap := resultMapFrom idx emails
        let values := valuesFrom rMap eIdx dataRows
        let writes :=
          if values = [] then [headerWrite]
          else
            [headerWrite,
             ⟨letter ++ codesOf "2:" ++ letter ++ natCodes (values.length + 1), values⟩]
        (Except.ok
          { total_count := (emails.length : Int)
            success_count := (emails.length : Int) - (notFound.length : Int)
            not_found_count := (notFound.length : Int)
            not_found_emails := notFound.take 50 },
         writes)

/-- `bytes.rstrip(bad)`: drop trailing bytes belonging to the byte set. -/
def pyRstrip (bad : List Nat) (s : Str) : Str :=
  (s.reverse.dropWhile (fun c => bad.contains c)).reverse

/-- First occurrence of `sep` in a byte string: the bytes before it and the
bytes after it, or `none` when `sep` does not occur. -/
def findSep (sep : Str) : Str → Option (Str × Str)
  | [] => if sep.isPrefixOf [] then some ([], []) else none
  | c :: rest =>
      if sep.isPrefixOf (c :: rest) then some ([], (c :: rest).drop sep.length)
      else (findSep sep rest).map fun pr => (c :: pr.1, pr.2)

/-- The recursion of `bytes.split(sep)`, fuelled by the input length (each
step consumes at least the separator, so the fuel never runs out). -/
def splitSepAux (sep : Str) : Nat → Str → List Str
  | 0, s => [s]
  | fuel + 1, s =>
      match findSep sep s with
      | none => [s]
      | some (pre, post) => pre :: splitSepAux sep fuel post

/-- Python `bytes.split(sep)` (leftmost, non-overlapping). -/
def pySplit (sep s : Str) : List Str := splitSepAux sep (s.length + 1) s

example : pySplit (codesOf "--B") (codesOf "--Bx--By") = [[], codesOf "x", codesOf "y"] := by
  decide

/-- `do_POST` lines 234-244 restricted to the `csv_file` part: split the
body on `b"--" + boundary`; for each part that is not a
`spreadsheet_url` part but mentions `name="csv_file"`, split once on
`b"\r\n\r\n"` and, when a payload exists, take it right-stripped of the
bytes `\r`, `\n`, `-`; later parts overwrite earlier ones. -/
def csvPartStep (acc : Option Str) (part : Str) : Option Str :=
  if containsSub (codesOf "name=\"spreadsheet_url\"") part then acc
  else if containsSub (codesOf "name=\"csv_file\"") part then
    match findSep (codesOf "\r\n\r\n") part with
    | some pr => some (pyRstrip [13, 10, 45] pr.2)
    | none => acc
  else acc

/-- The whole `csv_file` extraction of `do_POST` (see `csvPartStep`). -/
def extractCsvContent (boundary body : Str) : Option Str :=
  (pySplit (codesOf "--" ++ boundary) body).foldl csvPartStep none

deriving instance DecidableEq for Except

/-- Spreadsheet contents of the end-to-end scenario of the spec. -/
def scenarioSheet : List (List Str) :=
  [[codesOf "氏名", codesOf "メールアドレス"],
   [codesOf "Taro", codesOf "a@x.com"],
   [codesOf "Hanako", codesOf "b@x.com"]]

/-- CSV contents of the end-to-end scenario of the spec. -/
def scenarioCsv : Csv :=
  { columns := [codesOf "メールアドレス", codesOf "登録経路"]
    rows := [[codesOf "A@X.COM", codesOf "Route1"],
             [codesOf "a@x.com", codesOf "Route2"],
             [codesOf "c@x.com", codesOf "Route3"]] }

example :
    processData scenarioSheet scenarioCsv =
      (Except.ok
        { total_count := 2
          success_count := 1
          not_found_count := 1
          not_found_emails := [codesOf "b@x.com"] },
       [⟨codesOf "C1", [[utageRouteHeader]]⟩,
        ⟨codesOf "C2:C3", [[codesOf "Route1, Route2"], [[]]]⟩]) := by
  decide

/-- Boundary of the concrete multipart upload used below. -/
def exBoundary : Str := codesOf "XYZ"

/-- The uploaded CSV file bytes of the concrete upload (note the trailing
CRLF, which is part of the file). -/
def exFileBytes : Str := codesOf "a,b\r\n1,2\r\n"

/-- A well-formed multipart body carrying `exFileBytes` as `csv_file`. -/
def exBody : Str :=
  codesOf "--XYZ\r\nContent-Disposition: form-data; name=\"csv_file\"; filename=\"t.csv\"\r\n\r\n" ++
    exFileBytes ++ codesOf "\r\n--XYZ--"

example : extractCsvContent exBoundary exBody = some (codesOf "a,b\r\n1,2") := by decide
example : extractCsvContent exBoundary exBody = some (exFileBytes.take 8) := by decide

/-- A base-26 letter string: nonempty, letters `A`–`Z` only. -/
def validColStr (L : Str) : Prop := L ≠ [] ∧ ∀ c ∈ L, 65 ≤ c ∧ c ≤ 90

instance : DecidablePred validColStr := fun L => by
  unfold validColStr; infer_instance

/-- Value of a letter string in bijective base 26 (`A`=1, …, `Z`=26). -/
def colVal (L : Str) : Nat := L.foldl (fun a c => a * 26 + (c - 64)) 0

/-- `colLetterAux` ignores the fuel as long as it is at least the index. -/
theorem colLetterAux_fuel (n : Nat) :
    ∀ f1 f2 acc, n ≤ f1 → n ≤ f2 →
      colLetterAux f1 n acc = colLetterAux f2 n acc := by
  induction n using Nat.strong_induction_on with
  | _ n ih =>
    intro f1 f2 acc h1 h2
    cases n with
    | zero => cases f1 <;> cases f2 <;> rfl
    | succ m =>
      cases f1 with
      | zero => omega
      | succ g1 =>
        cases f2 with
        | zero => omega
        | succ g2 =>
          simp only [colLetterAux]
          exact ih (m / 26) (by omega) g1 g2 _ (by omega) (by omega)

/-- The loop of `col_index_to_letter` run on index `n` with just enough
fuel and an empty accumulator. -/
def colCanon (n : Nat) : Str := colLetterAux n n []

/-- `colLetterAux` prepends its output to the accumulator. -/
theorem colLetterAux_eq (n : Nat) :
    ∀ f acc, n ≤ f → colLetterAux f n acc = colCanon n ++ acc := by
  induction n using Nat.strong_induction_on with
  | _ n ih =>
    intro f acc hf
    cases n with
    | zero => cases f <;> rfl
    | succ m =>
      cases f with
      | zero => omega
      | succ g =>
        simp only [colLetterAux]
        have h1 : colLetterAux g (m / 26) ((65 + m % 26) :: acc) =
            colCanon (m / 26) ++ ((65 + m % 26) :: acc) :=
          ih (m / 26) (by omega) g _ (by omega)
        have h2 : colCanon (m + 1) = colCanon (m / 26) ++ [65 + m % 26] := by
          show colLetterAux (m + 1) (m + 1) [] = _
          simp only [colLetterAux]
          exact ih (m / 26) (by omega) m _ (by omega)
        rw [h1, h2, List.append_assoc]
        rfl
    
/-- The unfolding of `colCanon` at a positive index. -/
theorem colCanon_succ (m : Nat) :
    colCanon (m + 1) = colCanon (m / 26) ++ [65 + m % 26] := by
  show colLetterAux (m + 1) (m + 1) [] = _
  simp only [colLetterAux]
  exact colLetterAux_eq (m / 26) m _ (by omega)

/-- `col_index_to_letter` in terms of `colCanon`. -/
theorem colIndexToLetter_eq (index : Nat) :
    colIndexToLetter index = colCanon (index + 1) := by
  show colLetterAux (index + 1) (index + 1) [] = colCanon (index + 1)
  rfl

/-- `colVal` of a string extended by a final letter. -/
theorem colVal_append_last (L : Str) (d : Nat) :
    colVal (L ++ [d]) = colVal L * 26 + (d - 64) := by
  simp [colVal, List.foldl_append]

/-- `colVal` inverts the letter loop. -/
theorem colVal_colCanon (n : Nat) : colVal (colCanon n) = n := by
  induction n using Nat.strong_induction_on with
  | _ n ih =>
    cases n with
    | zero => rfl
    | succ m =>
      rw [colCanon_succ, colVal_append_last, ih (m / 26) (by omega)]
      omega

/-- The letter loop produces only valid letter strings (positive index). -/
theorem colCanon_valid (n : Nat) (hn : 0 < n) : validColStr (colCanon n) := by
  induction n using Nat.strong_induction_on with
  | _ n ih =>
    cases n with
    | zero => omega
    | succ m =>
      rw [colCanon_succ]
      constructor
      · simp
      · intro c hc
        rcases List.mem_append.1 hc with h | h
        · rcases Nat.eq_zero_or_pos (m / 26) with hz | hp
          · rw [hz] at h; cases h
          · exact (ih (m / 26) (by omega) hp).2 c h
        · have : c = 65 + m % 26 := List.mem_singleton.1 h
          omega

/-- The letter loop is inverted by `colVal` on every valid string. -/
theorem colCanon_colVal (L : Str) (h : ∀ c ∈ L, 65 ≤ c ∧ c ≤ 90) :
    colCanon (colVal L) = L := by
  induction L using List.reverseRecOn with
  | nil => rfl
  | append_singleton L d ih =>
    have hd : 65 ≤ d ∧ d ≤ 90 := h d (by simp)
    have hL : ∀ c ∈ L, 65 ≤ c ∧ c ≤ 90 := fun c hc => h c (by simp [hc])
    rw [colVal_append_last]
    have hk : colVal L * 26 + (d - 64) = (colVal L * 26 + (d - 65)) + 1 := by omega
    rw [hk, colCanon_succ]
    have hdiv : (colVal L * 26 + (d - 65)) / 26 = colVal L := by omega
    have hmod : 65 + (colVal L * 26 + (d - 65)) % 26 = d := by omega
    rw [hdiv, hmod, ih hL]

/-- C5: `col_index_to_letter` is a bijection from the non-negative
integers onto the base-26 letter strings (A–Z, no zero digit), with
0→"A", 1→"B", 25→"Z", 26→"AA", 27→"AB", 701→"ZZ", 702→"AAA". -/
theorem colIndexToLetter_bijective :
    (colIndexToLetter 0 = codesOf "A" ∧ colIndexToLetter 1 = codesOf "B" ∧
     colIndexToLetter 25 = codesOf "Z" ∧ colIndexToLetter 26 = codesOf "AA" ∧
     colIndexToLetter 27 = codesOf "AB" ∧ colIndexToLetter 701 = codesOf "ZZ" ∧
     colIndexToLetter 702 = codesOf "AAA") ∧
    (∀ n, validColStr (colIndexToLetter n)) ∧
    (∀ n m, colIndexToLetter n = colIndexToLetter m → n = m) ∧
    (∀ L, validColStr L → ∃ n, colIndexToLetter n = L) := by
  refine ⟨by decide, ?_, ?_, ?_⟩
  · intro n
    rw [colIndexToLetter_eq]
    exact colCanon_valid (n + 1) (by omega)
  · intro n m h
    rw [colIndexToLetter_eq, colIndexToLetter_eq] at h
    have := congrArg colVal h
    rw [colVal_colCanon, colVal_colCanon] at this
    omega
  · intro L hL
    have hinv : colCanon (colVal L) = L := colCanon_colVal L hL.2
    have hpos : 0 < colVal L := by
      rcases Nat.eq_zero_or_pos (colVal L) with hz | hp
      · exfalso
        apply hL.1
        rw [← hinv, hz]
        rfl
      · exact hp
    refine ⟨colVal L - 1, ?_⟩
    rw [colIndexToLetter_eq]
    have : colVal L - 1 + 1 = colVal L := by omega
    rw [this, hinv]

/-- Witness for C5: injectivity and surjectivity instantiated at concrete
inputs (`"ZZ"` is reached, by index 701). -/
theorem colIndexToLetter_bijective_witness :
    (0 : Nat) = 0 ∧ ∃ n, colIndexToLetter n = [90, 90] :=
  ⟨colIndexToLetter_bijective.2.2.1 0 0 rfl,
   colIndexToLetter_bijective.2.2.2 [90, 90] ⟨by decide, by decide⟩⟩

/-- C1: end-to-end reconciliation on the spec's scenario — header
`["氏名","メールアドレス"]` with rows Taro/`a@x.com` and Hanako/`b@x.com`,
CSV rows (`A@X.COM`,Route1), (`a@x.com`,Route2), (`c@x.com`,Route3):
the `UTAGE登録経路` header is written at column index 2 (= letter "C",
cell C1), the data write puts "Route1, Route2" in Taro's row and "" in
Hanako's row, and the result reports `total_count=2`, `success_count=1`,
`not_found_count=1`, `not_found_emails=["b@x.com"]`. -/
theorem processData_scenario :
    processData scenarioSheet scenarioCsv =
      (Except.ok
        { total_count := 2
          success_count := 1
          not_found_count := 1
          not_found_emails := [codesOf "b@x.com"] },
       [⟨colIndexToLetter 2 ++ codesOf "1", [[utageRouteHeader]]⟩,
        ⟨codesOf "C2:C3", [[codesOf "Route1, Route2"], [[]]]⟩]) ∧
    colIndexToLetter 2 = codesOf "C" := by decide

/-- Every code point in the image of the NFKC fold is itself NFKC-normal. -/
theorem nfkcChar_image_fixed (c d : Nat) (h : d ∈ nfkcChar c) : nfkcChar d = [d] := by
  by_cases h1 : c = 12443
  · subst h1
    have hd : d = 32 ∨ d = 12441 := by simpa [nfkcChar] using h
    rcases hd with rfl | rfl <;> decide
  · by_cases h2 : c = 65313
    · subst h2
      have hd : d = 65 := by simpa [nfkcChar] using h
      subst hd
      decide
    · by_cases h3 : c = 12288
      · subst h3
        have hd : d = 32 := by simpa [nfkcChar] using h
        subst hd
        decide
      · have hd : d = c := by
          simpa [nfkcChar, if_neg h1, if_neg h2, if_neg h3] using h
        subst hd
        simp only [nfkcChar, if_neg h1, if_neg h2, if_neg h3]

/-- NFKC is the identity on strings of NFKC-normal code points. -/
theorem nfkcS_of_fixed (s : Str) (h : ∀ c ∈ s, nfkcChar c = [c]) : nfkcS s = s := by
  induction s with
  | nil => rfl
  | cons c rest ih =>
    have : nfkcS (c :: rest) = nfkcChar c ++ nfkcS rest := by
      simp [nfkcS]
    rw [this, h c (by simp), ih fun d hd => h d (by simp [hd])]
    rfl

/-- Membership in an NFKC-normalized string comes through the fold. -/
theorem mem_nfkcS (s : Str) (d : Nat) (h : d ∈ nfkcS s) :
    ∃ c ∈ s, d ∈ nfkcChar c := by
  simp only [nfkcS, List.mem_flatten, List.mem_map] at h
  rcases h with ⟨t, ⟨c, hc, rfl⟩, hd⟩
  exact ⟨c, hc, hd⟩

/-- ASCII lowercasing is idempotent per code point. -/
theorem lowerNat_idem (c : Nat) : lowerNat (lowerNat c) = lowerNat c := by
  unfold lowerNat
  split_ifs <;> omega

/-- ASCII lowercasing of an NFKC-normal code point stays NFKC-normal. -/
theorem nfkcChar_lowerNat (c : Nat) (h : nfkcChar c = [c]) :
    nfkcChar (lowerNat c) = [lowerNat c] := by
  unfold lowerNat
  split_ifs with hc
  · simp only [nfkcChar, if_neg (by omega : ¬c + 32 = 12443),
      if_neg (by omega : ¬c + 32 = 65313), if_neg (by omega : ¬c + 32 = 12288)]
  · exact h

/-- Lowercasing a whole string is idempotent. -/
theorem lowerS_idem (s : Str) : lowerS (lowerS s) = lowerS s := by
  simp only [lowerS, List.map_map]
  exact List.map_congr_left fun c _ => lowerNat_idem c

/-- Unfolding of `normalize_email` on a nonempty input. -/
theorem normalizeEmail_of_ne (s : Str) (h : s ≠ []) :
    normalizeEmail s = lowerS (nfkcS (stripS s)) := by
  simp [normalizeEmail, h]

/-- C4, amended: `normalize_email` is idempotent on every input whose
normalized form carries no leading or trailing whitespace (re-stripping it
is a no-op).  Unconditional idempotence fails: the NFKC compatibility
decomposition can introduce a leading space (see
`normalizeEmail_not_idempotent`). -/
theorem normalizeEmail_idem_of_stripped (x : Str)
    (h : stripS (normalizeEmail x) = normalizeEmail x) :
    normalizeEmail (normalizeEmail x) = normalizeEmail x := by
  by_cases hx : x = []
  · subst hx
    rfl
  · have hL : normalizeEmail x = lowerS (nfkcS (stripS x)) :=
      normalizeEmail_of_ne x hx
    by_cases hLe : normalizeEmail x = []
    · rw [hLe]
      rfl
    · have hfix : ∀ d ∈ normalizeEmail x, nfkcChar d = [d] := by
        intro d hd
        rw [hL] at hd
        simp only [lowerS, List.mem_map] at hd
        rcases hd with ⟨c, hc, rfl⟩
        rcases mem_nfkcS _ c hc with ⟨e, _, he⟩
        exact nfkcChar_lowerNat c (nfkcChar_image_fixed e c he)
      have hnf : nfkcS (normalizeEmail x) = normalizeEmail x :=
        nfkcS_of_fixed _ hfix
      have hlo : lowerS (normalizeEmail x) = normalizeEmail x := by
        rw [hL]
        exact lowerS_idem _
      calc normalizeEmail (normalizeEmail x)
          = lowerS (nfkcS (stripS (normalizeEmail x))) :=
            normalizeEmail_of_ne _ hLe
        _ = normalizeEmail x := by rw [h, hnf, hlo]

/-- Counterexample to C4 as stated: for the katakana voiced sound mark
U+309B, NFKC produces a leading space, so a second application of
`normalize_email` strips further and the result changes. -/
theorem normalizeEmail_not_idempotent :
    normalizeEmail (normalizeEmail [12443]) ≠ normalizeEmail [12443] := by decide

/-- Witness for the amended C4 at the concrete input `" A@X.COM "`. -/
theorem normalizeEmail_idem_witness :
    stripS (normalizeEmail (codesOf " A@X.COM ")) = normalizeEmail (codesOf " A@X.COM ") ∧
    normalizeEmail (normalizeEmail (codesOf " A@X.COM ")) = normalizeEmail (codesOf " A@X.COM ") :=
  ⟨by decide, normalizeEmail_idem_of_stripped _ (by decide)⟩

/-- The header-matching predicate exactly as the claim words it: the
*lowercased* column name is tested for substring containment against the
lowercased aliases in either direction (no trimming).  Stated only to be
compared with the code's `matchesAlias`, which also strips the name. -/
def specLowerMatch (colName : Str) : Bool :=
  EMAIL_COLUMN_PATTERNS.any fun p =>
    containsSub (lowerS p) (lowerS colName) || containsSub (lowerS colName) (lowerS p)

/-- Counterexample to C6 as stated: for the header `[" m "]` the code
lowercases *and strips* the name, so the stripped `"m"` is a substring of
the alias "mail" and index 0 is returned — but no alias matches the merely
lowercased `" m "` in either direction, so the claim's predicate says no
column matches. -/
theorem findEmailColumn_lowercase_counterexample :
    findEmailColumn [codesOf " m "] = 0 ∧ specLowerMatch (codesOf " m ") = false := by
  decide

/-- The loop of `find_email_column` returns `-1` exactly when no column
matches. -/
theorem fecAux_none (header : List Str) :
    ∀ k : Nat,
      (findEmailColumnAux k header = -1 ↔ ∀ col ∈ header, matchesAlias col = false) := by
  induction header with
  | nil => intro k; simp [findEmailColumnAux]
  | cons col rest ih =>
    intro k
    by_cases hc : matchesAlias col = true
    · constructor
      · intro h
        simp only [findEmailColumnAux, if_pos hc] at h
        omega
      · intro h
        exact absurd (h col (by simp)) (by simp [hc])
    · simp only [findEmailColumnAux, if_neg hc]
      rw [ih (k + 1)]
      constructor
      · intro h col2 hcol2
        rcases List.mem_cons.1 hcol2 with rfl | h2
        · simpa using hc
        · exact h col2 h2
      · intro h col2 hcol2
        exact h col2 (by simp [hcol2])

/-- When the loop of `find_email_column` returns a non-negative index, it
is the offset plus the position of the first matching column. -/
theorem fecAux_some (header : List Str) :
    ∀ k i : Nat,
      findEmailColumnAux k header = (i : Int) →
      ∃ j, i = k + j ∧ j < header.length ∧ matchesAlias (header.getD j []) = true ∧
        ∀ jj, jj < j → matchesAlias (header.getD jj []) = false := by
  induction header with
  | nil =>
    intro k i h
    simp only [findEmailColumnAux] at h
    omega
  | cons col rest ih =>
    intro k i h
    by_cases hc : matchesAlias col = true
    · simp only [findEmailColumnAux, if_pos hc] at h
      have hk : i = k := by omega
      exact ⟨0, by omega, by simp, by simpa using hc, fun jj hjj => by omega⟩
    · simp only [findEmailColumnAux, if_neg hc] at h
      rcases ih (k + 1) i h with ⟨j, hij, hlen, hm, hmin⟩
      refine ⟨j + 1, by omega, by simpa using hlen, by simpa using hm, ?_⟩
      intro jj hjj
      cases jj with
      | zero => simpa using hc
      | succ m =>
        have : m < j := by omega
        simpa using hmin m this

/-- C6, amended: `find_email_column` returns the index of the first column
whose *lowercased and trimmed* name matches some configured alias by
case-insensitive substring test in either direction, and `-1` when no
column matches (the claim as stated omits the trimming; see
`findEmailColumn_lowercase_counterexample`). -/
theorem findEmailColumn_first_match (header : List Str) :
    (findEmailColumn header = -1 ↔ ∀ col ∈ header, matchesAlias col = false) ∧
    (∀ i : Nat, findEmailColumn header = (i : Int) →
      i < header.length ∧ matchesAlias (header.getD i []) = true ∧
      ∀ j, j < i → matchesAlias (header.getD j []) = false) := by
  constructor
  · exact fecAux_none header 0
  · intro i h
    rcases fecAux_some header 0 i h with ⟨j, hij, hlen, hm, hmin⟩
    have hji : j = i := by omega
    subst hji
    exact ⟨hlen, hm, hmin⟩

/-- Witness for the amended C6 on the scenario header: index 1 is the
first matching column. -/
theorem findEmailColumn_first_match_witness :
    1 < ([codesOf "氏名", codesOf "メールアドレス"] : List Str).length ∧
    matchesAlias (([codesOf "氏名", codesOf "メールアドレス"] : List Str).getD 1 []) = true ∧
    ∀ j, j < 1 →
      matchesAlias (([codesOf "氏名", codesOf "メールアドレス"] : List Str).getD j []) = false :=
  (findEmailColumn_first_match [codesOf "氏名", codesOf "メールアドレス"]).2 1 (by decide)

/-- C7: `extract_spreadsheet_id` tries the Google-Sheets-URL regex first,
then the whole-string token regex, returns the first capture, and returns
the input unchanged when neither matches; concretely the URL
`https://docs.google.com/spreadsheets/d/ABC123/edit` and the bare ID
`ABC123` both extract to `ABC123`. -/
theorem extractSpreadsheetId_spec :
    extractSpreadsheetId (codesOf "https://docs.google.com/spreadsheets/d/ABC123/edit") =
      codesOf "ABC123" ∧
    extractSpreadsheetId (codesOf "ABC123") = codesOf "ABC123" ∧
    (∀ s captured, urlSearch s = some captured → extractSpreadsheetId s = captured) ∧
    (∀ s captured, urlSearch s = none → tokenMatch s = some captured →
      extractSpreadsheetId s = captured) ∧
    (∀ s, urlSearch s = none → tokenMatch s = none → extractSpreadsheetId s = s) := by
  refine ⟨by decide, by decide, ?_, ?_, ?_⟩
  · intro s captured h
    simp [extractSpreadsheetId, h]
  · intro s captured h1 h2
    simp [extractSpreadsheetId, h1, h2]
  · intro s h1 h2
    simp [extractSpreadsheetId, h1, h2]

/-- Witness for C7: a string matching neither regex comes back unchanged. -/
theorem extractSpreadsheetId_spec_witness :
    extractSpreadsheetId (codesOf "https://example.com/???") =
      codesOf "https://example.com/???" :=
  extractSpreadsheetId_spec.2.2.2.2 (codesOf "https://example.com/???")
    (by decide) (by decide)

/-- Reading back the key just set. -/
theorem dictGet_set_self {β : Type} (d : Dict β) (key : Str) (v : β) :
    dictGet (dictSet d key v) key = some v := by
  induction d with
  | nil => simp [dictSet, dictGet]
  | cons kv rest ih =>
    obtain ⟨k, w⟩ := kv
    by_cases hk : k = key
    · simp [dictSet, dictGet, hk]
    · simp [dictSet, dictGet, hk, ih]

/-- Setting one key leaves every other key unchanged. -/
theorem dictGet_set_ne {β : Type} (d : Dict β) (key key2 : Str) (v : β)
    (h : key ≠ key2) :
    dictGet (dictSet d key v) key2 = dictGet d key2 := by
  induction d with
  | nil => simp [dictSet, dictGet, h]
  | cons kv rest ih =>
    obtain ⟨k, w⟩ := kv
    by_cases hk : k = key
    · subst hk
      simp [dictSet, dictGet, h]
    · simp [dictSet, dictGet, hk, ih]

/-- The value under each key, after any run of the CSV indexing loop, is
the dedupe-fold of the route stream of the rows matching that key. -/
theorem buildIndexAux_get (columns : List Str) :
    ∀ (rows : List (List Str)) (d : Dict (List Str)) (key : Str),
      dictGetD (rows.foldl (indexStep columns) d) key =
        (routesForRows columns key rows).foldl insertRoute (dictGetD d key) := by
  intro rows
  induction rows with
  | nil => intro d key; rfl
  | cons row rest ih =>
    intro d key
    simp only [List.foldl_cons]
    by_cases he : getCell columns row UTAGE_EMAIL_COLUMN = []
    · have hstep : indexStep columns d row = d := by simp [indexStep, he]
      have hstream :
          routesForRows columns key (row :: rest) = routesForRows columns key rest := by
        simp [routesForRows, List.filterMap_cons, he]
      rw [hstep, hstream]
      exact ih d key
    · by_cases hn : normalizeEmail (getCell columns row UTAGE_EMAIL_COLUMN) = key
      · have hstep : indexStep columns d row =
            dictSet d key
              (insertRoute (dictGetD d key) (getCell columns row UTAGE_ROUTE_COLUMN)) := by
          simp [indexStep, he, hn]
        have hstream :
            routesForRows columns key (row :: rest) =
              getCell columns row UTAGE_ROUTE_COLUMN :: routesForRows columns key rest := by
          simp [routesForRows, List.filterMap_cons, he, hn]
        rw [hstep, hstream, List.foldl_cons, ih]
        congr 1
        simp [dictGetD, dictGet_set_self]
      · have hstep : indexStep columns d row =
            dictSet d (normalizeEmail (getCell columns row UTAGE_EMAIL_COLUMN))
              (insertRoute (dictGetD d (normalizeEmail (getCell columns row UTAGE_EMAIL_COLUMN)))
                (getCell columns row UTAGE_ROUTE_COLUMN)) := by
          simp [indexStep, he]
        have hstream :
            routesForRows columns key (row :: rest) = routesForRows columns key rest := by
          simp [routesForRows, List.filterMap_cons, he, hn]
        rw [hstep, hstream, ih]
        congr 1
        simp [dictGetD, dictGet_set_ne _ _ _ _ hn]

/-- A key is absent after the CSV indexing loop exactly when it was absent
before and no row contributed to it. -/
theorem buildIndexAux_none (columns : List Str) :
    ∀ (rows : List (List Str)) (d : Dict (List Str)) (key : Str),
      (dictGet (rows.foldl (indexStep columns) d) key = none ↔
        dictGet d key = none ∧ routesForRows columns key rows = []) := by
  intro rows
  induction rows with
  | nil => intro d key; simp [routesForRows]
  | cons row rest ih =>
    intro d key
    simp only [List.foldl_cons]
    by_cases he : getCell columns row UTAGE_EMAIL_COLUMN = []
    · have hstep : indexStep columns d row = d := by simp [indexStep, he]
      have hstream :
          routesForRows columns key (row :: rest) = routesForRows columns key rest := by
        simp [routesForRows, List.filterMap_cons, he]
      rw [hstep, hstream]
      exact ih d key
    · by_cases hn : normalizeEmail (getCell columns row UTAGE_EMAIL_COLUMN) = key
      · have hstep : indexStep columns d row =
            dictSet d key
              (insertRoute (dictGetD d key) (getCell columns row UTAGE_ROUTE_COLUMN)) := by
          simp [indexStep, he, hn]
        have hstream :
            routesForRows columns key (row :: rest) =
              getCell columns row UTAGE_ROUTE_COLUMN :: routesForRows columns key rest := by
          simp [routesForRows, List.filterMap_cons, he, hn]
        rw [hstep, hstream, ih]
        simp [dictGet_set_self]
      · have hstep : indexStep columns d row =
            dictSet d (normalizeEmail (getCell columns row UTAGE_EMAIL_COLUMN))
              (insertRoute (dictGetD d (normalizeEmail (getCell columns row UTAGE_EMAIL_COLUMN)))
                (getCell columns row UTAGE_ROUTE_COLUMN)) := by
          simp [indexStep, he]
        have hstream :
            routesForRows columns key (row :: rest) = routesForRows columns key rest := by
          simp [routesForRows, List.filterMap_cons, he, hn]
        rw [hstep, hstream, ih]
        simp [dictGet_set_ne _ _ _ _ hn]

/-- The dedupe-fold never introduces duplicates. -/
theorem foldl_insertRoute_nodup :
    ∀ (rs acc : List Str), acc.Nodup → (rs.foldl insertRoute acc).Nodup := by
  intro rs
  induction rs with
  | nil => intro acc h; exact h
  | cons r rest ih =>
    intro acc h
    rw [List.foldl_cons]
    apply ih
    unfold insertRoute
    split_ifs with hr
    · exact h
    · simp [List.nodup_append, h, hr]

/-- C2: in the CSV index, rows with an empty email cell are skipped
(`routesFor` already filters them away), and every key maps to the streams
of its routes deduped in first-seen order (the left fold of `insertRoute`
over the row-order route stream); the resulting route list never has
duplicates; in particular (`a@x.com`, R1) followed by (`A@X.COM`, R1)
yields exactly the single route "R1" under `normalize("a@x.com")`. -/
theorem buildIndex_spec (csv : Csv) (key : Str) :
    (dictGet (buildIndex csv) key =
      if routesFor csv key = [] then none
      else some ((routesFor csv key).foldl insertRoute [])) ∧
    ((dictGet (buildIndex csv) key).getD []).Nodup ∧
    dictGet
        (buildIndex
          { columns := [codesOf "メールアドレス", codesOf "登録経路"]
            rows := [[codesOf "a@x.com", codesOf "R1"],
                     [codesOf "A@X.COM", codesOf "R1"]] })
        (normalizeEmail (codesOf "a@x.com")) = some [codesOf "R1"] := by
  have hget : dictGetD (buildIndex csv) key =
      (routesFor csv key).foldl insertRoute [] := by
    have h := buildIndexAux_get csv.columns csv.rows [] key
    simpa [buildIndex, routesFor, dictGetD, dictGet] using h
  have hnone : dictGet (buildIndex csv) key = none ↔ routesFor csv key = [] := by
    have h := buildIndexAux_none csv.columns csv.rows [] key
    simpa [buildIndex, routesFor, dictGet] using h
  have hmain : dictGet (buildIndex csv) key =
      if routesFor csv key = [] then none
      else some ((routesFor csv key).foldl insertRoute []) := by
    by_cases hs : routesFor csv key = []
    · rw [if_pos hs]
      exact hnone.2 hs
    · rw [if_neg hs]
      cases hv : dictGet (buildIndex csv) key with
      | none => exact absurd (hnone.1 hv) hs
      | some v =>
        have : v = (routesFor csv key).foldl insertRoute [] := by
          rw [← hget]
          simp [dictGetD, hv]
        rw [this]
  refine ⟨hmain, ?_, by decide⟩
  rw [hmain]
  split_ifs
  · simp
  · simpa using foldl_insertRoute_nodup (routesFor csv key) [] (by simp)

/-- C3: when the run reaches the CSV stage (an email column was found and
emails were extracted) and the decoded CSV lacks `メールアドレス` or
`登録経路`, `process_data` raises the error naming the missing column and
records no `worksheet.update` call at all — the spreadsheet is untouched. -/
theorem processData_missing_column (headerRow : List Str) (dataRows : List (List Str))
    (csv : Csv)
    (hcol : ¬ findEmailColumn headerRow < 0)
    (hemails : emailsFrom (findEmailColumn headerRow).toNat dataRows ≠ []) :
    (UTAGE_EMAIL_COLUMN ∉ csv.columns →
      processData (headerRow :: dataRows) csv =
        (Except.error (msgMissingCol UTAGE_EMAIL_COLUMN), []) ∧
      ∃ pre post, msgMissingCol UTAGE_EMAIL_COLUMN = pre ++ UTAGE_EMAIL_COLUMN ++ post) ∧
    (UTAGE_EMAIL_COLUMN ∈ csv.columns → UTAGE_ROUTE_COLUMN ∉ csv.columns →
      processData (headerRow :: dataRows) csv =
        (Except.error (msgMissingCol UTAGE_ROUTE_COLUMN), []) ∧
      ∃ pre post, msgMissingCol UTAGE_ROUTE_COLUMN = pre ++ UTAGE_ROUTE_COLUMN ++ post) := by
  constructor
  · intro hmem
    refine ⟨?_, codesOf "CSVに「", codesOf "」列がありません", rfl⟩
    simp [processData, hcol, hemails, hmem]
  · intro hmem hroute
    refine ⟨?_, codesOf "CSVに「", codesOf "」列がありません", rfl⟩
    simp [processData, hcol, hemails, hmem, hroute]

/-- Witness for C3: a CSV with only the route column triggers the
email-column error with no writes. -/
theorem processData_missing_column_witness :
    processData
        ([codesOf "氏名", codesOf "メールアドレス"] :: [[codesOf "Taro", codesOf "a@x.com"]])
        { columns := [codesOf "登録経路"], rows := [] } =
      (Except.error (msgMissingCol UTAGE_EMAIL_COLUMN), []) ∧
    ∃ pre post, msgMissingCol UTAGE_EMAIL_COLUMN = pre ++ UTAGE_EMAIL_COLUMN ++ post :=
  (processData_missing_column [codesOf "氏名", codesOf "メールアドレス"]
      [[codesOf "Taro", codesOf "a@x.com"]]
      { columns := [codesOf "登録経路"], rows := [] }
      (by decide) (by decide)).1 (by decide)

/-- The matching loop can never report more not-found emails than emails. -/
theorem notFound_length_le (idx : Dict (List Str)) (emails : List Str) :
    (notFoundFrom idx emails).length ≤ emails.length :=
  List.length_filter_le _ _

/-- The extracted emails are exactly as many as the data rows with a
non-empty email cell. -/
theorem emailsFrom_length (eIdx : Nat) (dataRows : List (List Str)) :
    (emailsFrom eIdx dataRows).length = dataRows.countP (hasEmailCell eIdx) := by
  simp [emailsFrom, List.countP_eq_length_filter]

/-- C8: every successful `process_data` run reports at most the first 50
not-found emails (in spreadsheet row order) in `not_found_emails`, while
`not_found_count` carries the full number. -/
theorem processData_notFound_truncation (headerRow : List Str)
    (dataRows : List (List Str)) (csv : Csv) (r : ProcResult) (ws : List Write)
    (h : processData (headerRow :: dataRows) csv = (Except.ok r, ws)) :
    r.not_found_emails =
      (notFoundFrom (buildIndex csv)
        (emailsFrom (findEmailColumn headerRow).toNat dataRows)).take 50 ∧
    r.not_found_count =
      ((notFoundFrom (buildIndex csv)
        (emailsFrom (findEmailColumn headerRow).toNat dataRows)).length : Int) ∧
    r.not_found_emails.length ≤ 50 := by
  simp only [processData] at h
  split_ifs at h
  all_goals simp only [Prod.mk.injEq, Except.ok.injEq] at h
  any_goals exact Except.noConfusion h.1
  all_goals
    obtain ⟨hr, hw⟩ := h
    subst hr
    refine ⟨rfl, rfl, ?_⟩
    show (List.take 50 (notFoundFrom (buildIndex csv)
      (emailsFrom (findEmailColumn headerRow).toNat dataRows))).length ≤ 50
    rw [List.length_take]
    omega

/-- Witness for C8 at the concrete scenario run. -/
theorem processData_notFound_truncation_witness :
    ({ total_count := 2, success_count := 1, not_found_count := 1,
       not_found_emails := [codesOf "b@x.com"] } : ProcResult).not_found_emails.length ≤ 50 :=
  (processData_notFound_truncation [codesOf "氏名", codesOf "メールアドレス"]
      [[codesOf "Taro", codesOf "a@x.com"], [codesOf "Hanako", codesOf "b@x.com"]]
      scenarioCsv
      { total_count := 2, success_count := 1, not_found_count := 1,
        not_found_emails := [codesOf "b@x.com"] }
      [⟨codesOf "C1", [[utageRouteHeader]]⟩,
       ⟨codesOf "C2:C3", [[codesOf "Route1, Route2"], [[]]]⟩]
      (by decide)).2.2

/-- C9: every successful `process_data` result satisfies
`total_count = success_count + not_found_count`, all three counts are
non-negative, and `total_count` is the number of spreadsheet data rows
holding a non-empty email cell. -/
theorem processData_count_invariants (headerRow : List Str)
    (dataRows : List (List Str)) (csv : Csv) (r : ProcResult) (ws : List Write)
    (h : processData (headerRow :: dataRows) csv = (Except.ok r, ws)) :
    r.total_count = r.success_count + r.not_found_count ∧
    0 ≤ r.total_count ∧ 0 ≤ r.success_count ∧ 0 ≤ r.not_found_count ∧
    r.total_count =
      (dataRows.countP (hasEmailCell (findEmailColumn headerRow).toNat) : Int) := by
  simp only [processData] at h
  split_ifs at h
  all_goals simp only [Prod.mk.injEq, Except.ok.injEq] at h
  any_goals exact Except.noConfusion h.1
  all_goals
    obtain ⟨hr, hw⟩ := h
    subst hr
    have hle := notFound_length_le (buildIndex csv)
      (emailsFrom (findEmailColumn headerRow).toNat dataRows)
    refine ⟨?_, ?_, ?_, ?_, ?_⟩
    · show ((emailsFrom (findEmailColumn headerRow).toNat dataRows).length : Int) =
        (((emailsFrom (findEmailColumn headerRow).toNat dataRows).length : Int) -
          ((notFoundFrom (buildIndex csv)
            (emailsFrom (findEmailColumn headerRow).toNat dataRows)).length : Int)) +
          ((notFoundFrom (buildIndex csv)
            (emailsFrom (findEmailColumn headerRow).toNat dataRows)).length : Int)
      ring
    · show (0 : Int) ≤ ((emailsFrom (findEmailColumn headerRow).toNat dataRows).length : Int)
      omega
    · show (0 : Int) ≤
        ((emailsFrom (findEmailColumn headerRow).toNat dataRows).length : Int) -
          ((notFoundFrom (buildIndex csv)
            (emailsFrom (findEmailColumn headerRow).toNat dataRows)).length : Int)
      omega
    · show (0 : Int) ≤ ((notFoundFrom (buildIndex csv)
        (emailsFrom (findEmailColumn headerRow).toNat dataRows)).length : Int)
      omega
    · show ((emailsFrom (findEmailColumn headerRow).toNat dataRows).length : Int) =
        (dataRows.countP (hasEmailCell (findEmailColumn headerRow).toNat) : Int)
      rw [emailsFrom_length]

/-- Witness for C9 at the concrete scenario run. -/
theorem processData_count_invariants_witness : (2 : Int) = 1 + 1 :=
  (processData_count_invariants [codesOf "氏名", codesOf "メールアドレス"]
      [[codesOf "Taro", codesOf "a@x.com"], [codesOf "Hanako", codesOf "b@x.com"]]
      scenarioCsv
      { total_count := 2, success_count := 1, not_found_count := 1,
        not_found_emails := [codesOf "b@x.com"] }
      [⟨codesOf "C1", [[utageRouteHeader]]⟩,
       ⟨codesOf "C2:C3", [[codesOf "Route1, Route2"], [[]]]⟩]
      (by decide)).1

/-- `dropWhile` is idempotent. -/
theorem dropWhile_idem (p : Nat → Bool) :
    ∀ l : List Nat, List.dropWhile p (List.dropWhile p l) = List.dropWhile p l := by
  intro l
  induction l with
  | nil => rfl
  | cons c rest ih =>
    by_cases hc : p c = true
    · simp [List.dropWhile_cons, hc, ih]
    · simp [List.dropWhile_cons, hc]

/-- `rstrip` is idempotent: its output carries no trailing byte of the
stripped set. -/
theorem pyRstrip_idem (bad : List Nat) (s : Str) :
    pyRstrip bad (pyRstrip bad s) = pyRstrip bad s := by
  unfold pyRstrip
  rw [List.reverse_reverse, dropWhile_idem]

/-- One multipart-loop step only ever produces right-stripped payloads. -/
theorem csvPartStep_inv (acc : Option Str) (part : Str) (c : Str)
    (hacc : ∀ b, acc = some b → pyRstrip [13, 10, 45] b = b)
    (h : csvPartStep acc part = some c) : pyRstrip [13, 10, 45] c = c := by
  unfold csvPartStep at h
  split_ifs at h
  · exact hacc c h
  · cases hf : findSep (codesOf "\r\n\r\n") part with
    | none =>
      rw [hf] at h
      exact hacc c h
    | some pr =>
      rw [hf] at h
      have hc : c = pyRstrip [13, 10, 45] pr.2 := (Option.some_inj.1 h).symm
      rw [hc, pyRstrip_idem]
  · exact hacc c h

/-- The whole multipart loop only ever produces right-stripped payloads. -/
theorem extractFold_inv :
    ∀ (parts : List Str) (acc : Option Str),
      (∀ b, acc = some b → pyRstrip [13, 10, 45] b = b) →
      ∀ c, parts.foldl csvPartStep acc = some c → pyRstrip [13, 10, 45] c = c := by
  intro parts
  induction parts with
  | nil => intro acc hacc c h; exact hacc c h
  | cons part rest ih =>
    intro acc hacc c h
    rw [List.foldl_cons] at h
    exact ih (csvPartStep acc part)
      (fun b hb => csvPartStep_inv acc part b hacc hb) c h

/-- C10: the `csv_file` payload extracted by `do_POST` is always
right-stripped of the bytes `\r`, `\n`, `-` (re-stripping it is a no-op),
and for a concrete well-formed upload whose file content ends in CRLF the
extracted `csv_content` is a strict truncation (the 8-byte proper prefix)
of the 10 uploaded file bytes. -/
theorem extractCsvContent_rstrip (boundary body c : Str)
    (h : extractCsvContent boundary body = some c) :
    pyRstrip [13, 10, 45] c = c ∧
    (extractCsvContent exBoundary exBody = some (exFileBytes.take 8) ∧
     exFileBytes.take 8 ≠ exFileBytes ∧
     (exFileBytes.take 8).isPrefixOf exFileBytes = true) := by
  refine ⟨?_, by decide, by decide, by decide⟩
  exact extractFold_inv _ none (fun b hb => Option.noConfusion hb) c h

/-- Witness for C10 at the concrete upload. -/
theorem extractCsvContent_rstrip_witness :
    pyRstrip [13, 10, 45] (exFileBytes.take 8) = exFileBytes.take 8 :=
  (extractCsvContent_rstrip exBoundary exBody (exFileBytes.take 8) (by decide)).1
